import Mathlib

/-!
Shallow embedding of the issue aggregation, issues pane, visual-logging driver
and animation timeline logic of the Chromium DevTools front-end sources, with
proofs of the stated aggregation, throttling, lifecycle and rendering claims.
-/

namespace DevToolsFrontEnd

namespace IssueModel

/-- Request record as consulted by Issue.isAssociatedWithRequestId
(front_end/sdk/Issue.js, lines 46-52): only the requestId field is read. -/
structure Request where
  requestId : String
deriving DecidableEq, Repr

/-- Shape of the untyped resources payload of an issue (Issue.js types it as star).
The JavaScript code consults the optional requests and cookies fields; an absent or
nullish field is modelled by none, a present (possibly empty) array by some. -/
structure Resources (Cookie : Type) where
  requests : Option (List Request)
  cookies : Option (List Cookie)
deriving DecidableEq, Repr

/-- Issue (Issue.js, lines 11-55): a code string plus an untyped resources payload
which may be null or undefined, modelled as an Option. -/
structure Issue (Cookie : Type) where
  _code : String
  _resources : Option (Resources Cookie)
deriving DecidableEq, Repr

/-- Issue.code (Issue.js, lines 27-29). -/
def Issue.code {Cookie : Type} (i : Issue Cookie) : String :=
  i._code

/-- Issue.resources (Issue.js, lines 34-36). -/
def Issue.resources {Cookie : Type} (i : Issue Cookie) : Option (Resources Cookie) :=
  i._resources

/-- Issue.isAssociatedWithRequestId (Issue.js, lines 42-54): false when resources is
nullish; otherwise, when the requests field is present (an absent field and an empty
array both leave the loop body unexecuted), scan it for a matching requestId. -/
def Issue.isAssociatedWithRequestId {Cookie : Type} (i : Issue Cookie) (requestId : String) : Bool :=
  match i._resources with
  | none => false
  | some res =>
    match res.requests with
    | none => false
    | some reqs => reqs.any (fun r => decide (r.requestId = requestId))

/-- AggregatedIssue state (Issue.js, lines 62-76): the constructor stores the group
code and an empty cookie map. The map is keyed by JSON.stringify of the cookie and,
being a JavaScript Map, iterates in insertion order; it is modelled as an association
list with unique keys, fresh keys appended at the end. The _resources array and the
_requests map also initialised by the constructor are never read nor written by the
code under verification and are omitted. -/
structure AggregatedIssue (Cookie : Type) where
  _code : String
  _cookies : List (String × Cookie)
deriving DecidableEq, Repr

/-- The AggregatedIssue constructor (Issue.js, lines 66-76). -/
def mkAggregatedIssue {Cookie : Type} (code : String) : AggregatedIssue Cookie :=
  { _code := code, _cookies := [] }

/-- AggregatedIssue.code (Issue.js, lines 81-83). -/
def AggregatedIssue.code {Cookie : Type} (a : AggregatedIssue Cookie) : String :=
  a._code

/-- AggregatedIssue.cookies (Issue.js, lines 89-91): Map.values in insertion order. -/
def AggregatedIssue.cookies {Cookie : Type} (a : AggregatedIssue Cookie) : List Cookie :=
  a._cookies.map Prod.snd

/-- AggregatedIssue.numberOfCookies (Issue.js, lines 96-98): Map.size, the number of
distinct keys held by the map. -/
def AggregatedIssue.numberOfCookies {Cookie : Type} (a : AggregatedIssue Cookie) : Nat :=
  a._cookies.length

/-- Map.has on the association list modelling the cookie map. -/
def mapHas {Cookie : Type} : List (String × Cookie) → String → Bool
  | [], _ => false
  | p :: rest, k => if p.1 = k then true else mapHas rest k

/-- One iteration of the cookie loop body of addInstance (Issue.js, lines 109-115):
if (!this._cookies.has(key)) this._cookies.set(key, cookie); a JavaScript Map appends
a fresh key at the end of its iteration order. The call
IssuesModel.connectWithIssue(cookie, issue) on line 110 mutates the external issues
model, never the aggregate, and therefore has no counterpart in this state. -/
def addCookie {Cookie : Type} (m : List (String × Cookie)) (k : String) (c : Cookie) : List (String × Cookie) :=
  if mapHas m k then m else m ++ [(k, c)]

/-- The cookie loop of addInstance (Issue.js, lines 109-115) over a cookie array. -/
def addCookies {Cookie : Type} (stringify : Cookie → String) : List Cookie → List (String × Cookie) → List (String × Cookie)
  | [], m => m
  | c :: cs, m => addCookies stringify cs (addCookie m (stringify c) c)

/-- AggregatedIssue.addInstance (Issue.js, lines 103-117), parametric in the host
serialisation function JSON.stringify: bail out when the issue's resources payload is
nullish; when the cookies field is present, fold its cookies into the map. -/
def AggregatedIssue.addInstance {Cookie : Type} (stringify : Cookie → String) (a : AggregatedIssue Cookie) (issue : Issue Cookie) : AggregatedIssue Cookie :=
  match issue._resources with
  | none => a
  | some resources =>
    match resources.cookies with
    | none => a
    | some cs => { a with _cookies := addCookies stringify cs a._cookies }

/-- A sequence of addInstance calls, performed in order. -/
def addInstances {Cookie : Type} (stringify : Cookie → String) : List (Issue Cookie) → AggregatedIssue Cookie → AggregatedIssue Cookie
  | [], a => a
  | i :: rest, a => addInstances stringify rest (a.addInstance stringify i)

/-- The cookies carried by one issue, exactly as traversed by addInstance: none when
the resources payload is nullish or the cookies field is absent. -/
def issueCookies {Cookie : Type} (i : Issue Cookie) : List Cookie :=
  match i._resources with
  | none => []
  | some r => r.cookies.getD []

/-- All cookies found in the added issues' resources, in order of addition. -/
def allCookies {Cookie : Type} : List (Issue Cookie) → List Cookie
  | [] => []
  | i :: rest => issueCookies i ++ allCookies rest

/-- Specification-side description of first-seen deduplication by serialisation key,
keeping the first-seen instance for each key in first-insertion order, used to state
the aggregation claim. -/
def firstSeenDedup {Cookie : Type} (stringify : Cookie → String) : List Cookie → List String → List Cookie
  | [], _ => []
  | c :: cs, seen =>
    if stringify c ∈ seen then firstSeenDedup stringify cs seen
    else c :: firstSeenDedup stringify cs (stringify c :: seen)

end IssueModel

namespace IssuesPane

/-- Own keys of the issueDetails object literal (IssuesPane, lines 606-630). The
record values are static display data (title, message, priority, link, linkTitle)
that is rendered into the DOM and never branched on by _updateAggregatedIssueView,
so only the keys are modelled. -/
def issueDetailsCodes : List String :=
  ["SameSiteCookies::SameSiteNoneWithoutSecure",
   "SameSiteCookies::SameSiteNoneMissingForThirdParty",
   "SameSiteCookieIssue"]

/-- Property names of Object.prototype, the prototype of the issueDetails object
literal. The JavaScript in operator walks the prototype chain, so these names also
satisfy the guard of _updateAggregatedIssueView even though they are not own keys of
issueDetails. -/
def objectPrototypeKeys : List String :=
  ["constructor", "hasOwnProperty", "isPrototypeOf", "propertyIsEnumerable",
   "toLocaleString", "toString", "valueOf", "__proto__",
   "__defineGetter__", "__defineSetter__", "__lookupGetter__", "__lookupSetter__"]

/-- The JavaScript expression (code in issueDetails): true when code is an own key of
the issueDetails literal or a property name inherited from its prototype,
Object.prototype (whose own prototype is null, ending the chain). -/
def inIssueDetails (code : String) : Bool :=
  issueDetailsCodes.contains code || objectPrototypeKeys.contains code

/-- Observable state of one AggregatedIssueView: a fresh identity assigned at
construction, the code of the aggregated issue the view was constructed with, and how
many times its update method has run. DOM rendering is not modelled. -/
structure ViewState where
  viewId : Nat
  issueCode : String
  updates : Nat
deriving DecidableEq, Repr

/-- Observable state of IssuesPaneImpl: the _issueViews map (a JavaScript Map keyed by
issue code, insertion ordered), the counter supplying fresh view identities, and how
many times _updateCounts has run. -/
structure PaneState where
  _issueViews : List (String × ViewState)
  nextViewId : Nat
  countsUpdated : Nat
deriving DecidableEq, Repr

/-- Map.has on the view map. -/
def hasView : List (String × ViewState) → String → Bool
  | [], _ => false
  | p :: rest, k => if p.1 = k then true else hasView rest k

/-- Map.get on the view map. -/
def lookupView : List (String × ViewState) → String → Option ViewState
  | [], _ => none
  | p :: rest, k => if p.1 = k then some p.2 else lookupView rest k

/-- The effect of this._issueViews.get(code).update() (IssuesPane, line 562): bump the
update counter of the view registered for the code, in place. -/
def bumpUpdate : List (String × ViewState) → String → List (String × ViewState)
  | [], _ => []
  | p :: rest, k =>
    if p.1 = k then (p.1, { p.2 with updates := p.2.updates + 1 }) :: rest
    else p :: bumpUpdate rest k

/-- IssuesPaneImpl._updateAggregatedIssueView (IssuesPane, lines 552-564): return at
once when (aggregatedIssue.code() in issueDetails) is false, the in operator
consulting the prototype chain; otherwise construct and register a fresh view when
none exists for the code yet, then update the view registered for the code and
refresh the toolbar counts. -/
def updateAggregatedIssueView {Cookie : Type} (st : PaneState) (aggregatedIssue : IssueModel.AggregatedIssue Cookie) : PaneState :=
  if inIssueDetails aggregatedIssue._code = false then st
  else
    let st1 :=
      if hasView st._issueViews aggregatedIssue._code then st
      else
        { st with
          _issueViews := st._issueViews ++
            [(aggregatedIssue._code,
              { viewId := st.nextViewId, issueCode := aggregatedIssue._code, updates := 0 })],
          nextViewId := st.nextViewId + 1 }
    { st1 with
      _issueViews := bumpUpdate st1._issueViews aggregatedIssue._code,
      countsUpdated := st1.countsUpdated + 1 }

end IssuesPane

namespace LoggingDriver

/-- PROCESS_DOM_INTERVAL (LoggingDriver.ts, line 17). -/
def PROCESS_DOM_INTERVAL : Nat := 500

/-- KEYBOARD_LOG_INTERVAL (LoggingDriver.ts, line 18). -/
def KEYBOARD_LOG_INTERVAL : Nat := 3000

/-- HOVER_LOG_INTERVAL (LoggingDriver.ts, line 19). -/
def HOVER_LOG_INTERVAL : Nat := 1000

/-- DRAG_LOG_INTERVAL (LoggingDriver.ts, line 20). -/
def DRAG_LOG_INTERVAL : Nat := 1250

/-- DRAG_REPORT_THRESHOLD (LoggingDriver.ts, line 21). -/
def DRAG_REPORT_THRESHOLD : ℤ := 50

/-- CLICK_LOG_INTERVAL (LoggingDriver.ts, line 22). -/
def CLICK_LOG_INTERVAL : Nat := 500

/-- RESIZE_LOG_INTERVAL (LoggingDriver.ts, line 23). -/
def RESIZE_LOG_INTERVAL : Nat := 1000

/-- Observable state of a Common.Throttler.Throttler as the driver uses it: the
interval it was constructed with and whether a piece of work is currently scheduled.
Scheduling through a throttler coalesces: a schedule call (re)sets the single pending
work slot, and a timer firing runs the pending work exactly once. The no-op throttler
(LoggingDriver.ts, lines 26-28) has a schedule method that does nothing. -/
structure Throttler where
  isNoOp : Bool
  interval : Nat
  pending : Bool
deriving DecidableEq, Repr

/-- noOpThrottler (LoggingDriver.ts, lines 26-28). -/
def noOpThrottler : Throttler :=
  { isNoOp := true, interval := 0, pending := false }

/-- new Common.Throttler.Throttler(interval). -/
def mkThrottler (interval : Nat) : Throttler :=
  { isNoOp := false, interval := interval, pending := false }

/-- Throttler.schedule: a no-op for the no-op throttler, otherwise it coalesces the
work into the single pending slot. -/
def Throttler.schedule (t : Throttler) : Throttler :=
  if t.isNoOp then t else { t with pending := true }

/-- State of the LoggingDriver module (LoggingDriver.ts, lines 26-50): the logging
flag, the six module-level throttlers, the documents array, the mutationObservers map
(node to the identity of the observer attached to it, insertion ordered) together
with the counter supplying fresh observer identities, and a count of how many times
the process function has run. -/
structure DriverState where
  logging : Bool
  processingThrottler : Throttler
  keyboardLogThrottler : Throttler
  hoverLogThrottler : Throttler
  dragLogThrottler : Throttler
  clickLogThrottler : Throttler
  resizeLogThrottler : Throttler
  documents : List Nat
  mutationObservers : List (Nat × Nat)
  nextObserverId : Nat
  processRuns : Nat
deriving DecidableEq, Repr

/-- isLogging (LoggingDriver.ts, lines 52-54). -/
def isLogging (st : DriverState) : Bool :=
  st.logging

/-- mutationObservers.has on the observer map. -/
def hasObserver : List (Nat × Nat) → Nat → Bool
  | [], _ => false
  | p :: rest, root => if p.1 = root then true else hasObserver rest root

/-- mutationObservers.get on the observer map. -/
def lookupObserver : List (Nat × Nat) → Nat → Option Nat
  | [], _ => none
  | p :: rest, root => if p.1 = root then some p.2 else lookupObserver rest root

/-- mutationObservers.delete on the observer map (the deleted observer is also
disconnected, which detaches it from the DOM and is not further modelled). -/
def removeObserver : List (Nat × Nat) → Nat → List (Nat × Nat)
  | [], _ => []
  | p :: rest, root =>
    if p.1 = root then removeObserver rest root
    else p :: removeObserver rest root

/-- observeMutations (LoggingDriver.ts, lines 40-48): attach one fresh
MutationObserver to every root not yet observed; each observer is constructed with
scheduleProcessing as its callback. -/
def observeMutations : List Nat → DriverState → DriverState
  | [], st => st
  | root :: rest, st =>
    if hasObserver st.mutationObservers root then observeMutations rest st
    else
      observeMutations rest
        { st with
          mutationObservers := st.mutationObservers ++ [(root, st.nextObserverId)],
          nextObserverId := st.nextObserverId + 1 }

/-- scheduleProcessing (LoggingDriver.ts, lines 103-109): route a single process run
through processingThrottler.schedule; the module-level processingThrottler variable is
always an object, hence always truthy, so the early return on line 104 never fires.
The process function itself is never called here. -/
def scheduleProcessing (st : DriverState) : DriverState :=
  { st with processingThrottler := st.processingThrottler.schedule }

/-- A DOM mutation seen by any observer registered by observeMutations invokes the
observer's callback, which is scheduleProcessing (LoggingDriver.ts, line 43). -/
def domMutation (st : DriverState) : DriverState :=
  scheduleProcessing st

/-- The processing throttler's timer fires: when work is pending (scheduled by
scheduleProcessing and wrapping one run of process), it executes exactly once. -/
def fireProcessingThrottler (st : DriverState) : DriverState :=
  if st.processingThrottler.pending then
    { st with
      processingThrottler := { st.processingThrottler with pending := false },
      processRuns := st.processRuns + 1 }
  else st

/-- The optional throttler overrides accepted by startLogging
(LoggingDriver.ts, lines 56-63). -/
structure StartOptions where
  processingThrottler : Option Throttler
  keyboardLogThrottler : Option Throttler
  hoverLogThrottler : Option Throttler
  dragLogThrottler : Option Throttler
  clickLogThrottler : Option Throttler
  resizeLogThrottler : Option Throttler
deriving DecidableEq, Repr

/-- startLogging given no options argument. -/
def defaultStartOptions : StartOptions :=
  { processingThrottler := none, keyboardLogThrottler := none, hoverLogThrottler := none,
    dragLogThrottler := none, clickLogThrottler := none, resizeLogThrottler := none }

/-- addDocument (LoggingDriver.ts, lines 75-83): push the document, run process
directly when the document's readyState is interactive or complete (docReady), attach
the visibilitychange and scroll listeners (both invoke scheduleProcessing; such events
are domMutation-like transitions in this model), and observe mutations of
document.body. -/
def addDocument (doc : Nat) (docReady : Bool) (docBody : Nat) (st : DriverState) : DriverState :=
  let st1 := { st with documents := st.documents ++ [doc] }
  let st2 := if docReady then { st1 with processRuns := st1.processRuns + 1 } else st1
  observeMutations [docBody] st2

/-- startLogging (LoggingDriver.ts, lines 56-73): set the logging flag, install each
throttler from the options or construct it at its default interval, then add the
current document. -/
def startLogging (options : StartOptions) (doc : Nat) (docReady : Bool) (docBody : Nat) (st : DriverState) : DriverState :=
  let st1 :=
    { st with
      logging := true,
      processingThrottler := options.processingThrottler.getD (mkThrottler PROCESS_DOM_INTERVAL),
      keyboardLogThrottler := options.keyboardLogThrottler.getD (mkThrottler KEYBOARD_LOG_INTERVAL),
      hoverLogThrottler := options.hoverLogThrottler.getD (mkThrottler HOVER_LOG_INTERVAL),
      dragLogThrottler := options.dragLogThrottler.getD (mkThrottler DRAG_LOG_INTERVAL),
      clickLogThrottler := options.clickLogThrottler.getD (mkThrottler CLICK_LOG_INTERVAL),
      resizeLogThrottler := options.resizeLogThrottler.getD (mkThrottler RESIZE_LOG_INTERVAL) }
  addDocument doc docReady docBody st1

/-- stopLogging (LoggingDriver.ts, lines 85-101): clear the logging flag, remove the
listeners, disconnect and delete the observer of every registered document's body and
of every shadow root reported by getDomState for the registered documents, empty the
documents array and reset processingThrottler to the no-op throttler. The body
function maps a document to its body node. The unregisterAllLoggables call clears the
non-DOM loggable registry, which lives in the separately modelled process state. -/
def stopLogging (body : Nat → Nat) (shadowRoots : List Nat) (st : DriverState) : DriverState :=
  let obs1 := st.documents.foldl (fun m d => removeObserver m (body d)) st.mutationObservers
  let obs2 := shadowRoots.foldl (fun m r => removeObserver m r) obs1
  { st with
    logging := false,
    mutationObservers := obs2,
    documents := [],
    processingThrottler := noOpThrottler }

/-- Events delivered to the pointerup and dragend listeners: either a MouseEvent
carrying screen coordinates or an event of some other type, on which maybeCancelDrag
returns at once (LoggingDriver.ts, lines 253-255). -/
inductive DriverEvent where
  | mouse (screenX screenY : ℤ)
  | other
deriving DecidableEq, Repr

/-- maybeCancelDrag (LoggingDriver.ts, lines 252-261), given the drag start
coordinates recorded by onDragStart (lines 243-250). The result tells whether
dragLogThrottler.schedule(cancelLogging) is invoked, which replaces the pending drag
log with a cancellation; on an early return the pending drag log is left in place. -/
def maybeCancelDrag (dragStartX dragStartY : ℤ) : DriverEvent → Bool
  | DriverEvent.other => false
  | DriverEvent.mouse screenX screenY =>
    if DRAG_REPORT_THRESHOLD ≤ |screenX - dragStartX| ∨ DRAG_REPORT_THRESHOLD ≤ |screenY - dragStartY| then
      false
    else
      true

end LoggingDriver

namespace LoggingProcess

/-- A loggable is either a DOM element (walked by getDomState) or a non-DOM object
(held by the NonDomState registry); the two kinds are distinct JavaScript values. -/
inductive Loggable where
  | dom (id : Nat)
  | nonDom (id : Nat)
deriving DecidableEq, Repr

/-- The impressionLogged flags of the per-loggable logging state created by
getOrCreateLoggingState; a loggable with no state yet reads as false. Setting a flag
prepends, and lookups take the first binding. -/
def FlagMap : Type := List (Loggable × Bool)

/-- Read loggingState.impressionLogged, defaulting to false for a fresh state. -/
def lookupFlag : List (Loggable × Bool) → Loggable → Bool
  | [], _ => false
  | p :: rest, l => if p.1 = l then p.2 else lookupFlag rest l

/-- loggingState.impressionLogged = true. -/
def setFlag (fl : List (Loggable × Bool)) (l : Loggable) : List (Loggable × Bool) :=
  (l, true) :: fl

/-- One registration held by the NonDomState registry: the non-DOM loggable and its
optional parent loggable. -/
structure NonDomEntry where
  loggable : Nat
  parent : Option Loggable
deriving DecidableEq, Repr

/-- unregisterLoggable (NonDomState): drop the registration of the loggable. -/
def unregisterLoggable : List NonDomEntry → Nat → List NonDomEntry
  | [], _ => []
  | e :: rest, id =>
    if e.loggable = id then unregisterLoggable rest id
    else e :: unregisterLoggable rest id

/-- The DOM loop of process (LoggingDriver.ts, lines 129-141) restricted to the
impression bookkeeping: for each element, in order, when its impressionLogged flag is
still false and the element is visible (visibleOverlap with the viewport, or a visible
select option - the env predicate), append it to visibleLoggables and set the flag in
the same step. Returns the updated flags and the appended elements in order. -/
def domImpressions (env : Nat → Bool) : List Nat → List (Loggable × Bool) → List (Loggable × Bool) × List Loggable
  | [], fl => (fl, [])
  | id :: rest, fl =>
    if lookupFlag fl (Loggable.dom id) = false ∧ env id = true then
      let r := domImpressions env rest (setFlag fl (Loggable.dom id))
      (r.1, Loggable.dom id :: r.2)
    else
      domImpressions env rest fl

/-- Visibility of a non-DOM registry entry (LoggingDriver.ts, line 223):
visible when it has no parent or its parent's impression has been logged. -/
def entryVisible (fl : List (Loggable × Bool)) (e : NonDomEntry) : Bool :=
  match e.parent with
  | none => true
  | some p => lookupFlag fl p

/-- The non-DOM loop of process (LoggingDriver.ts, lines 221-233): iterate the
registry snapshot taken by getNonDomState; every visible entry is appended to
visibleLoggables, has its impressionLogged flag set and is unregistered from the live
registry in the same step. Returns the updated flags, the live registry and the
appended loggables in order. -/
def nonDomImpressions : List NonDomEntry → List (Loggable × Bool) → List NonDomEntry → List (Loggable × Bool) × List NonDomEntry × List Loggable
  | [], fl, reg => (fl, reg, [])
  | e :: rest, fl, reg =>
    if entryVisible fl e = true then
      let r := nonDomImpressions rest (setFlag fl (Loggable.nonDom e.loggable)) (unregisterLoggable reg e.loggable)
      (r.1, r.2.1, Loggable.nonDom e.loggable :: r.2.2)
    else
      nonDomImpressions rest fl reg

/-- The impression-relevant state carried across process runs: the per-loggable
impressionLogged flags and the NonDomState registry. -/
structure ImpressionState where
  flags : List (Loggable × Bool)
  registry : List NonDomEntry
deriving Repr

/-- One run of process (LoggingDriver.ts, lines 111-236) restricted to impression
bookkeeping: the DOM loop over the elements reported by getDomState, then the non-DOM
loop over the registry snapshot; the run passes the concatenated visibleLoggables to
logImpressions. -/
def processRun (env : Nat → Bool) (doms : List Nat) (st : ImpressionState) : ImpressionState × List Loggable :=
  let d := domImpressions env doms st.flags
  let n := nonDomImpressions st.registry d.1 st.registry
  ({ flags := n.1, registry := n.2.1 }, d.2 ++ n.2.2)

/-- A sequence of process runs, each with its own visibility environment and element
list, collecting everything passed to logImpressions. -/
def processRuns : List ((Nat → Bool) × List Nat) → ImpressionState → ImpressionState × List Loggable
  | [], st => (st, [])
  | input :: rest, st =>
    let r := processRun input.1 input.2 st
    let r2 := processRuns rest r.1
    (r2.1, r.2 ++ r2.2)

/-- A loggable that may still be logged from state st: a DOM element whose
impressionLogged flag is false, or a non-DOM loggable still registered. -/
def fresh (st : ImpressionState) (l : Loggable) : Prop :=
  match l with
  | Loggable.dom _ => lookupFlag st.flags l = false
  | Loggable.nonDom id => id ∈ st.registry.map NonDomEntry.loggable

end LoggingProcess

namespace AnimationTimelineModel

/-- Modelled from the spec: the AnimationTimeline implementation
(front_end/panels/animation/AnimationTimeline.ts) is not among the sources; only its
test AnimationTimeline.test.ts is. An updated animation is either a time animation,
described by its iteration count and single-iteration duration, or a scroll-driven
animation, described by the scroll range of its source node and the node's current
scroll offset in pixels. -/
inductive AnimationKind where
  | time (iterations : ℚ) (iterationDuration : ℚ)
  | scrollDriven (scrollRange : ℚ) (scrollOffset : ℤ)
deriving DecidableEq, Repr

/-- Modelled from the spec: the timeline state the scrubber math maintains - the
timeline duration, the current-time label text and the scrubber's translateX. -/
structure TimelineState where
  timelineDuration : ℚ
  currentTimeText : String
  scrubberTranslateX : ℚ
deriving DecidableEq, Repr

/-- Modelled from the spec: the effect of animationUpdated on the timeline, per the
spec's timeline scrubber math and the expectations of AnimationTimeline.test.ts
(lines 441-459 and 624-669). For a time animation the timeline duration becomes
iterations times the iteration duration. For a scroll-driven animation the duration
becomes the source node's scroll range, the current-time label shows the scroll offset
rendered in pixels, and the scrubber is translated by the offset times the timeline's
pixel-time ratio. -/
def animationUpdated (pixelTimeRatio : ℚ) (st : TimelineState) : AnimationKind → TimelineState
  | AnimationKind.time iterations iterationDuration =>
    { st with timelineDuration := iterations * iterationDuration }
  | AnimationKind.scrollDriven scrollRange scrollOffset =>
    { timelineDuration := scrollRange,
      currentTimeText := toString scrollOffset ++ "px",
      scrubberTranslateX := (scrollOffset : ℚ) * pixelTimeRatio }

end AnimationTimelineModel

namespace IssueModel

theorem addInstance_code {Cookie : Type} (stringify : Cookie → String) (a : AggregatedIssue Cookie) (issue : Issue Cookie) :
    (a.addInstance stringify issue)._code = a._code := by
  unfold AggregatedIssue.addInstance
  split
  · rfl
  · split
    · rfl
    · rfl

theorem addInstances_code {Cookie : Type} (stringify : Cookie → String) (issues : List (Issue Cookie)) :
    ∀ a : AggregatedIssue Cookie, (addInstances stringify issues a)._code = a._code := by
  induction issues with
  | nil => intro a; rfl
  | cons i rest ih =>
    intro a
    rw [addInstances, ih, addInstance_code]

/-- Claim C10: Issue.isAssociatedWithRequestId(requestId) returns true exactly when
the issue's resources payload is present, has a requests collection, and some request
in it has a requestId equal to the argument; in particular it returns false whenever
resources is nullish or the requests field is absent. -/
theorem issue_c10_isAssociatedWithRequestId {Cookie : Type} (i : Issue Cookie) (rid : String) :
    (i.isAssociatedWithRequestId rid = true ↔
      ∃ res, i._resources = some res ∧
        ∃ reqs, res.requests = some reqs ∧ ∃ r ∈ reqs, r.requestId = rid) ∧
    (i._resources = none → i.isAssociatedWithRequestId rid = false) ∧
    (∀ res, i._resources = some res → res.requests = none →
      i.isAssociatedWithRequestId rid = false) := by
  refine ⟨?_, ?_, ?_⟩
  · cases h : i._resources with
    | none => simp [Issue.isAssociatedWithRequestId, h]
    | some res =>
      cases h2 : res.requests with
      | none => simp [Issue.isAssociatedWithRequestId, h, h2]
      | some reqs => simp [Issue.isAssociatedWithRequestId, h, h2, List.any_eq_true]
  · intro h
    simp [Issue.isAssociatedWithRequestId, h]
  · intro res h h2
    simp [Issue.isAssociatedWithRequestId, h, h2]

/-- Witness for C10 at a concrete issue with a nullish resources payload. -/
theorem issue_c10_witness :
    (⟨"c", none⟩ : Issue Unit)._resources = none ∧
    Issue.isAssociatedWithRequestId (⟨"c", none⟩ : Issue Unit) "r" = false :=
  ⟨rfl, (issue_c10_isAssociatedWithRequestId (⟨"c", none⟩ : Issue Unit) "r").2.1 rfl⟩

/-- Claim C7: addInstance returns at once, leaving the aggregate unchanged, for an
issue whose resources payload is nullish, and no sequence of addInstance calls ever
changes the value of AggregatedIssue.code, which always equals the code given to the
constructor. -/
theorem issue_c7_addInstance_guard {Cookie : Type} (stringify : Cookie → String) :
    (∀ (a : AggregatedIssue Cookie) (issue : Issue Cookie),
      issue._resources = none → a.addInstance stringify issue = a) ∧
    (∀ (a : AggregatedIssue Cookie) (issue : Issue Cookie),
      (a.addInstance stringify issue).code = a.code) ∧
    (∀ (code : String) (issues : List (Issue Cookie)),
      (addInstances stringify issues (mkAggregatedIssue code)).code = code) := by
  refine ⟨?_, ?_, ?_⟩
  · intro a issue h
    unfold AggregatedIssue.addInstance
    rw [h]
  · intro a issue
    exact addInstance_code stringify a issue
  · intro code issues
    exact addInstances_code stringify issues (mkAggregatedIssue code)

/-- Witness for C7 at a concrete aggregate and a resource-free issue. -/
theorem issue_c7_witness :
    (⟨"x", none⟩ : Issue Unit)._resources = none ∧
    AggregatedIssue.addInstance (fun _ => "") (mkAggregatedIssue "code") (⟨"x", none⟩ : Issue Unit) =
      mkAggregatedIssue "code" :=
  ⟨rfl, (issue_c7_addInstance_guard (fun _ => "")).1 (mkAggregatedIssue "code") ⟨"x", none⟩ rfl⟩

theorem mapHas_iff_mem {Cookie : Type} (m : List (String × Cookie)) (k : String) :
    mapHas m k = true ↔ k ∈ m.map Prod.fst := by
  induction m with
  | nil => simp [mapHas]
  | cons p rest ih =>
    by_cases hp : p.1 = k
    · simp [mapHas, hp]
    · rw [mapHas, if_neg hp]
      simp only [List.map_cons, List.mem_cons, ih]
      constructor
      · exact fun h => Or.inr h
      · rintro (h | h)
        · exact absurd h.symm hp
        · exact h

theorem firstSeenDedup_congr {Cookie : Type} (stringify : Cookie → String) :
    ∀ (cs : List Cookie) (s1 s2 : List String), (∀ x, x ∈ s1 ↔ x ∈ s2) →
      firstSeenDedup stringify cs s1 = firstSeenDedup stringify cs s2 := by
  intro cs
  induction cs with
  | nil => intro s1 s2 _; rfl
  | cons c cs ih =>
    intro s1 s2 h
    by_cases hc : stringify c ∈ s1
    · rw [firstSeenDedup, if_pos hc, firstSeenDedup, if_pos ((h _).mp hc)]
      exact ih s1 s2 h
    · rw [firstSeenDedup, if_neg hc, firstSeenDedup, if_neg (fun hx => hc ((h _).mpr hx))]
      refine congrArg (c :: ·) (ih _ _ ?_)
      intro x
      simp [List.mem_cons, h x]

theorem addCookies_eq {Cookie : Type} (stringify : Cookie → String) :
    ∀ (cs : List Cookie) (m : List (String × Cookie)),
      addCookies stringify cs m =
        m ++ (firstSeenDedup stringify cs (m.map Prod.fst)).map (fun c => (stringify c, c)) := by
  intro cs
  induction cs with
  | nil => intro m; simp [addCookies, firstSeenDedup]
  | cons c cs ih =>
    intro m
    rw [addCookies]
    by_cases h : mapHas m (stringify c) = true
    · have hmem : stringify c ∈ m.map Prod.fst := (mapHas_iff_mem m _).mp h
      rw [addCookie, if_pos h, ih m, firstSeenDedup, if_pos hmem]
    · have hmem : stringify c ∉ m.map Prod.fst := fun hx => h ((mapHas_iff_mem m _).mpr hx)
      rw [addCookie, if_neg h, ih (m ++ [(stringify c, c)]), firstSeenDedup, if_neg hmem]
      have hkeys : (m ++ [(stringify c, c)]).map Prod.fst = m.map Prod.fst ++ [stringify c] := by
        simp
      rw [hkeys, firstSeenDedup_congr stringify cs (m.map Prod.fst ++ [stringify c])
        (stringify c :: m.map Prod.fst) (by intro x; simp [or_comm])]
      simp

theorem addCookies_append {Cookie : Type} (stringify : Cookie → String) :
    ∀ (xs ys : List Cookie) (m : List (String × Cookie)),
      addCookies stringify (xs ++ ys) m = addCookies stringify ys (addCookies stringify xs m) := by
  intro xs
  induction xs with
  | nil => intro ys m; rfl
  | cons c xs ih =>
    intro ys m
    rw [List.cons_append, addCookies, addCookies, ih]

theorem addInstance_cookies_eq {Cookie : Type} (stringify : Cookie → String) (a : AggregatedIssue Cookie) (i : Issue Cookie) :
    (a.addInstance stringify i)._cookies = addCookies stringify (issueCookies i) a._cookies := by
  obtain ⟨icode, res⟩ := i
  cases res with
  | none => rfl
  | some r =>
    obtain ⟨reqs, cooks⟩ := r
    cases cooks with
    | none => rfl
    | some cs => rfl

theorem addInstances_cookies {Cookie : Type} (stringify : Cookie → String) :
    ∀ (issues : List (Issue Cookie)) (a : AggregatedIssue Cookie),
      (addInstances stringify issues a)._cookies = addCookies stringify (allCookies issues) a._cookies := by
  intro issues
  induction issues with
  | nil => intro a; rfl
  | cons i rest ih =>
    intro a
    rw [addInstances, ih, allCookies, addCookies_append, addInstance_cookies_eq]

theorem firstSeenDedup_map_mem {Cookie : Type} (stringify : Cookie → String) :
    ∀ (cs : List Cookie) (seen : List String) (x : String),
      x ∈ (firstSeenDedup stringify cs seen).map stringify ↔
        (x ∈ cs.map stringify ∧ x ∉ seen) := by
  intro cs
  induction cs with
  | nil => intro seen x; simp [firstSeenDedup]
  | cons c cs ih =>
    intro seen x
    by_cases hc : stringify c ∈ seen
    · rw [firstSeenDedup, if_pos hc, ih]
      simp only [List.map_cons, List.mem_cons]
      constructor
      · rintro ⟨h1, h2⟩
        exact ⟨Or.inr h1, h2⟩
      · rintro ⟨h1 | h1, h2⟩
        · exact absurd (h1 ▸ hc) h2
        · exact ⟨h1, h2⟩
    · rw [firstSeenDedup, if_neg hc]
      simp only [List.map_cons, List.mem_cons, ih (stringify c :: seen) x]
      constructor
      · rintro (h1 | ⟨h1, h2⟩)
        · exact ⟨Or.inl h1, h1 ▸ hc⟩
        · exact ⟨Or.inr h1, fun hx => h2 (Or.inr hx)⟩
      · rintro ⟨h1 | h1, h2⟩
        · exact Or.inl h1
        · by_cases hx : x = stringify c
          · exact Or.inl hx
          · exact Or.inr ⟨h1, fun hor => hor.elim hx h2⟩

theorem firstSeenDedup_map_nodup {Cookie : Type} (stringify : Cookie → String) :
    ∀ (cs : List Cookie) (seen : List String),
      ((firstSeenDedup stringify cs seen).map stringify).Nodup := by
  intro cs
  induction cs with
  | nil => intro seen; simp [firstSeenDedup]
  | cons c cs ih =>
    intro seen
    by_cases hc : stringify c ∈ seen
    · rw [firstSeenDedup, if_pos hc]
      exact ih seen
    · rw [firstSeenDedup, if_neg hc]
      simp only [List.map_cons, List.nodup_cons]
      refine ⟨?_, ih _⟩
      intro hmem
      exact ((firstSeenDedup_map_mem stringify cs (stringify c :: seen) (stringify c)).mp hmem).2
        (List.mem_cons_self _ _)

/-- Claim C1: aggregation deduplicates affected cookies. After any sequence of
addInstance calls on a freshly constructed AggregatedIssue, the internal cookie map
holds exactly one entry per distinct serialisation (JSON.stringify value) occurring
among the added issues' resources.cookies - its keys are duplicate-free and range
over exactly those serialisations; numberOfCookies returns the count of distinct
serialisations; and cookies() yields exactly the first-seen cookie instance of each
serialisation, in first-insertion order. -/
theorem issue_c1_cookie_dedup {Cookie : Type} (stringify : Cookie → String) (code : String) (issues : List (Issue Cookie)) :
    (addInstances stringify issues (mkAggregatedIssue code)).cookies =
      firstSeenDedup stringify (allCookies issues) [] ∧
    ((addInstances stringify issues (mkAggregatedIssue code))._cookies.map Prod.fst =
      (firstSeenDedup stringify (allCookies issues) []).map stringify) ∧
    ((addInstances stringify issues (mkAggregatedIssue code))._cookies.map Prod.fst).Nodup ∧
    (∀ k, k ∈ (addInstances stringify issues (mkAggregatedIssue code))._cookies.map Prod.fst ↔
      k ∈ (allCookies issues).map stringify) ∧
    (addInstances stringify issues (mkAggregatedIssue code)).numberOfCookies =
      ((allCookies issues).map stringify).toFinset.card := by
  have hck : (addInstances stringify issues (mkAggregatedIssue code))._cookies =
      (firstSeenDedup stringify (allCookies issues) []).map (fun c => (stringify c, c)) := by
    rw [addInstances_cookies, addCookies_eq]
    rfl
  have hkeys : (addInstances stringify issues (mkAggregatedIssue code))._cookies.map Prod.fst =
      (firstSeenDedup stringify (allCookies issues) []).map stringify := by
    rw [hck, List.map_map]
    rfl
  have hnodup := firstSeenDedup_map_nodup stringify (allCookies issues) []
  refine ⟨?_, hkeys, ?_, ?_, ?_⟩
  · rw [AggregatedIssue.cookies, hck, List.map_map]
    have hcomp : (Prod.snd ∘ fun c : Cookie => (stringify c, c)) = id := rfl
    rw [hcomp, List.map_id]
  · rw [hkeys]
    exact hnodup
  · intro k
    rw [hkeys, firstSeenDedup_map_mem]
    simp
  · rw [AggregatedIssue.numberOfCookies, hck, List.length_map]
    have h2 : ((firstSeenDedup stringify (allCookies issues) []).map stringify).toFinset =
        ((allCookies issues).map stringify).toFinset := by
      ext x
      rw [List.mem_toFinset, List.mem_toFinset, firstSeenDedup_map_mem]
      simp
    calc (firstSeenDedup stringify (allCookies issues) []).length
        = ((firstSeenDedup stringify (allCookies issues) []).map stringify).length :=
          (List.length_map _ _).symm
      _ = ((firstSeenDedup stringify (allCookies issues) []).map stringify).toFinset.card :=
          (List.toFinset_card_of_nodup hnodup).symm
      _ = ((allCookies issues).map stringify).toFinset.card := by rw [h2]

end IssueModel

namespace IssuesPane

theorem hasView_of_lookup (m : List (String × ViewState)) (k : String) (v : ViewState) (h : lookupView m k = some v) :
    hasView m k = true := by
  induction m with
  | nil => exact absurd h (by simp [lookupView])
  | cons p rest ih =>
    by_cases hp : p.1 = k
    · simp [hasView, hp]
    · rw [lookupView, if_neg hp] at h
      rw [hasView, if_neg hp]
      exact ih h

theorem bumpUpdate_keys (m : List (String × ViewState)) (k : String) :
    (bumpUpdate m k).map Prod.fst = m.map Prod.fst := by
  induction m with
  | nil => rfl
  | cons p rest ih =>
    by_cases hp : p.1 = k
    · simp [bumpUpdate, hp]
    · rw [bumpUpdate, if_neg hp]
      simp [ih]

theorem bumpUpdate_lookup (m : List (String × ViewState)) (k : String) (v : ViewState) (h : lookupView m k = some v) :
    lookupView (bumpUpdate m k) k = some { v with updates := v.updates + 1 } := by
  induction m with
  | nil => exact absurd h (by simp [lookupView])
  | cons p rest ih =>
    by_cases hp : p.1 = k
    · rw [lookupView, if_pos hp] at h
      rw [bumpUpdate, if_pos hp, lookupView, if_pos hp]
      rw [Option.some_inj] at h
      rw [h]
    · rw [lookupView, if_neg hp] at h
      rw [bumpUpdate, if_neg hp, lookupView, if_neg hp]
      exact ih h

theorem bumpUpdate_append_not_has (m : List (String × ViewState)) (k : String) (v : ViewState) (h : hasView m k = false) :
    bumpUpdate (m ++ [(k, v)]) k = m ++ [(k, { v with updates := v.updates + 1 })] := by
  induction m with
  | nil => simp [bumpUpdate]
  | cons p rest ih =>
    by_cases hp : p.1 = k
    · rw [hasView, if_pos hp] at h
      exact absurd h (by simp)
    · rw [hasView, if_neg hp] at h
      rw [List.cons_append, bumpUpdate, if_neg hp, ih h, List.cons_append]

theorem lookupView_append_not_has (m : List (String × ViewState)) (k : String) (v : ViewState) (h : hasView m k = false) :
    lookupView (m ++ [(k, v)]) k = some v := by
  induction m with
  | nil => simp [lookupView]
  | cons p rest ih =>
    by_cases hp : p.1 = k
    · rw [hasView, if_pos hp] at h
      exact absurd h (by simp)
    · rw [hasView, if_neg hp] at h
      rw [List.cons_append, lookupView, if_neg hp]
      exact ih h

/-- Counterexample to C4 as stated: the code "toString" is not a key of issueDetails,
yet _updateAggregatedIssueView does not return early on it - the JavaScript in
operator finds the name on Object.prototype, so the method creates a view and
registers it under "toString", changing the pane state. -/
theorem pane_c4_counterexample :
    issueDetailsCodes.contains
      (IssueModel.mkAggregatedIssue "toString" : IssueModel.AggregatedIssue Unit)._code = false ∧
    (updateAggregatedIssueView (PaneState.mk [] 0 0)
      (IssueModel.mkAggregatedIssue "toString" : IssueModel.AggregatedIssue Unit))._issueViews.map
        Prod.fst = ["toString"] ∧
    updateAggregatedIssueView (PaneState.mk [] 0 0)
      (IssueModel.mkAggregatedIssue "toString" : IssueModel.AggregatedIssue Unit) ≠
      PaneState.mk [] 0 0 := by
  refine ⟨by decide, by decide, by decide⟩

/-- Claim C4, amended: the issues panel keeps at most one view per issue code. When
(code() in issueDetails) is false - the code is neither an own key of issueDetails
nor a property name inherited from Object.prototype - _updateAggregatedIssueView
returns leaving the pane state (views, view identities, counts) untouched. When the
in check passes and no view exists for the code, exactly one fresh view is created
and appended under that code (and then updated once and the counts refreshed). When
a view for the code already exists, no view is created: the existing view is updated
in place, keeping its identity, and the counts are refreshed. -/
theorem pane_c4_one_view_per_code {Cookie : Type} (st : PaneState) (agg : IssueModel.AggregatedIssue Cookie) :
    (inIssueDetails agg._code = false → updateAggregatedIssueView st agg = st) ∧
    (inIssueDetails agg._code = true → hasView st._issueViews agg._code = false →
      ((updateAggregatedIssueView st agg)._issueViews.map Prod.fst =
        st._issueViews.map Prod.fst ++ [agg._code] ∧
      lookupView (updateAggregatedIssueView st agg)._issueViews agg._code =
        some { viewId := st.nextViewId, issueCode := agg._code, updates := 1 } ∧
      (updateAggregatedIssueView st agg).nextViewId = st.nextViewId + 1 ∧
      (updateAggregatedIssueView st agg).countsUpdated = st.countsUpdated + 1)) ∧
    (inIssueDetails agg._code = true →
      ∀ v, lookupView st._issueViews agg._code = some v →
      ((updateAggregatedIssueView st agg)._issueViews.map Prod.fst = st._issueViews.map Prod.fst ∧
      lookupView (updateAggregatedIssueView st agg)._issueViews agg._code =
        some { viewId := v.viewId, issueCode := v.issueCode, updates := v.updates + 1 } ∧
      (updateAggregatedIssueView st agg).nextViewId = st.nextViewId ∧
      (updateAggregatedIssueView st agg).countsUpdated = st.countsUpdated + 1)) := by
  refine ⟨?_, ?_, ?_⟩
  · intro h
    rw [updateAggregatedIssueView, if_pos h]
  · intro h1 h2
    have hcond : ¬(inIssueDetails agg._code = false) := by
      rw [h1]
      decide
    have hnv : ¬(hasView st._issueViews agg._code = true) := by
      rw [h2]
      decide
    have hres : updateAggregatedIssueView st agg =
        { _issueViews := bumpUpdate
            (st._issueViews ++ [(agg._code,
              { viewId := st.nextViewId, issueCode := agg._code, updates := 0 })]) agg._code,
          nextViewId := st.nextViewId + 1,
          countsUpdated := st.countsUpdated + 1 } := by
      rw [updateAggregatedIssueView, if_neg hcond, if_neg hnv]
    refine ⟨?_, ?_, ?_, ?_⟩
    · rw [hres]
      show (bumpUpdate _ _).map Prod.fst = _
      rw [bumpUpdate_keys]
      simp
    · rw [hres]
      show lookupView (bumpUpdate _ _) _ = _
      rw [bumpUpdate_append_not_has _ _ _ h2]
      exact lookupView_append_not_has _ _ _ h2
    · rw [hres]
    · rw [hres]
  · intro h1 v hv
    have hcond : ¬(inIssueDetails agg._code = false) := by
      rw [h1]
      decide
    have hview : hasView st._issueViews agg._code = true := hasView_of_lookup _ _ _ hv
    have hres : updateAggregatedIssueView st agg =
        { _issueViews := bumpUpdate st._issueViews agg._code,
          nextViewId := st.nextViewId,
          countsUpdated := st.countsUpdated + 1 } := by
      rw [updateAggregatedIssueView, if_neg hcond, if_pos hview]
    refine ⟨?_, ?_, ?_, ?_⟩
    · rw [hres]
      exact bumpUpdate_keys _ _
    · rw [hres]
      exact bumpUpdate_lookup _ _ _ hv
    · rw [hres]
    · rw [hres]

/-- Witness for C4: inserting a known-code issue into an empty pane creates exactly
one view registered under that code. -/
theorem pane_c4_witness :
    inIssueDetails
      (IssueModel.mkAggregatedIssue "SameSiteCookieIssue" : IssueModel.AggregatedIssue Unit)._code = true ∧
    hasView (PaneState.mk [] 0 0)._issueViews
      (IssueModel.mkAggregatedIssue "SameSiteCookieIssue" : IssueModel.AggregatedIssue Unit)._code = false ∧
    (updateAggregatedIssueView (PaneState.mk [] 0 0)
      (IssueModel.mkAggregatedIssue "SameSiteCookieIssue" : IssueModel.AggregatedIssue Unit))._issueViews.map Prod.fst =
      ["SameSiteCookieIssue"] :=
  ⟨by decide, by decide,
   (((pane_c4_one_view_per_code (PaneState.mk [] 0 0)
      (IssueModel.mkAggregatedIssue "SameSiteCookieIssue" : IssueModel.AggregatedIssue Unit)).2.1
      (by decide) (by decide)).1).trans (by decide)⟩

end IssuesPane

namespace LoggingDriver

/-- Claim C6: for a pointerup or dragend MouseEvent, maybeCancelDrag schedules
cancellation of the pending drag log exactly when the pointer moved strictly less
than DRAG_REPORT_THRESHOLD = 50 from the drag start in absolute value on the x axis
and also strictly less than 50 on the y axis; a displacement of at least 50 on either
axis leaves the pending drag log in place. -/
theorem driver_c6_drag_threshold (dragStartX dragStartY screenX screenY : ℤ) :
    (maybeCancelDrag dragStartX dragStartY (DriverEvent.mouse screenX screenY) = true ↔
      |screenX - dragStartX| < 50 ∧ |screenY - dragStartY| < 50) ∧
    (50 ≤ |screenX - dragStartX| ∨ 50 ≤ |screenY - dragStartY| →
      maybeCancelDrag dragStartX dragStartY (DriverEvent.mouse screenX screenY) = false) ∧
    DRAG_REPORT_THRESHOLD = 50 := by
  have hthr : DRAG_REPORT_THRESHOLD = 50 := rfl
  have key : maybeCancelDrag dragStartX dragStartY (DriverEvent.mouse screenX screenY) = true ↔
      ¬((50 : ℤ) ≤ |screenX - dragStartX| ∨ (50 : ℤ) ≤ |screenY - dragStartY|) := by
    by_cases h : (50 : ℤ) ≤ |screenX - dragStartX| ∨ (50 : ℤ) ≤ |screenY - dragStartY|
    · simp [maybeCancelDrag, DRAG_REPORT_THRESHOLD, h]
    · simp [maybeCancelDrag, DRAG_REPORT_THRESHOLD, h]
  refine ⟨?_, ?_, hthr⟩
  · rw [key, not_or, not_le, not_le]
  · intro h
    cases hb : maybeCancelDrag dragStartX dragStartY (DriverEvent.mouse screenX screenY) with
    | false => rfl
    | true => exact absurd h (key.mp hb)

/-- Witness for C6: a displacement of 60 pixels on the x axis does not schedule a
cancellation of the pending drag log. -/
theorem driver_c6_witness :
    ((50 : ℤ) ≤ |(60 : ℤ) - 0| ∨ (50 : ℤ) ≤ |(0 : ℤ) - 0|) ∧
    maybeCancelDrag 0 0 (DriverEvent.mouse 60 0) = false :=
  ⟨by decide, (driver_c6_drag_threshold 0 0 60 0).2.1 (by decide)⟩

theorem iterate_domMutation_processRuns (n : Nat) (st : DriverState) :
    (domMutation^[n] st).processRuns = st.processRuns := by
  induction n with
  | zero => rfl
  | succ m ih =>
    rw [Function.iterate_succ_apply']
    exact ih

theorem fireProcessingThrottler_processRuns_le (st : DriverState) :
    (fireProcessingThrottler st).processRuns ≤ st.processRuns + 1 := by
  unfold fireProcessingThrottler
  split
  · exact Nat.le_refl _
  · exact Nat.le_succ _

theorem observeMutations_throttler (roots : List Nat) :
    ∀ st : DriverState, (observeMutations roots st).processingThrottler = st.processingThrottler := by
  induction roots with
  | nil => intro st; rfl
  | cons root rest ih =>
    intro st
    by_cases h : hasObserver st.mutationObservers root = true
    · simp only [observeMutations, if_pos h]
      exact ih st
    · simp only [observeMutations, if_neg h]
      exact ih _

theorem observeMutations_logging (roots : List Nat) :
    ∀ st : DriverState, (observeMutations roots st).logging = st.logging := by
  induction roots with
  | nil => intro st; rfl
  | cons root rest ih =>
    intro st
    by_cases h : hasObserver st.mutationObservers root = true
    · simp only [observeMutations, if_pos h]
      exact ih st
    · simp only [observeMutations, if_neg h]
      exact ih _

theorem startLogging_default_throttler (doc docBody : Nat) (docReady : Bool) (st : DriverState) :
    (startLogging defaultStartOptions doc docReady docBody st).processingThrottler =
      mkThrottler PROCESS_DOM_INTERVAL := by
  unfold startLogging addDocument
  rw [observeMutations_throttler]
  cases docReady
  · rfl
  · rfl

/-- Claim C2: visual-logging DOM processing is throttled. Every mutation observer
registered by observeMutations invokes scheduleProcessing and nothing else;
scheduleProcessing never runs process directly, so any number of DOM mutations leaves
the count of executed process runs unchanged, and the throttler firing that follows
them executes at most one scheduled processing run. When startLogging is given no
throttler, the processing throttler is constructed at the default interval
PROCESS_DOM_INTERVAL = 500. -/
theorem driver_c2_throttled_processing (st st0 : DriverState) (n : Nat) (doc docBody : Nat) (docReady : Bool) :
    (∀ s : DriverState, domMutation s = scheduleProcessing s) ∧
    (∀ s : DriverState, (scheduleProcessing s).processRuns = s.processRuns) ∧
    (domMutation^[n] st).processRuns = st.processRuns ∧
    (fireProcessingThrottler (domMutation^[n] st)).processRuns ≤ st.processRuns + 1 ∧
    (startLogging defaultStartOptions doc docReady docBody st0).processingThrottler =
      mkThrottler PROCESS_DOM_INTERVAL ∧
    PROCESS_DOM_INTERVAL = 500 := by
  refine ⟨fun _ => rfl, fun _ => rfl, iterate_domMutation_processRuns n st, ?_,
    startLogging_default_throttler doc docBody docReady st0, rfl⟩
  calc (fireProcessingThrottler (domMutation^[n] st)).processRuns
      ≤ (domMutation^[n] st).processRuns + 1 := fireProcessingThrottler_processRuns_le _
    _ = st.processRuns + 1 := by rw [iterate_domMutation_processRuns n st]

theorem scheduleProcessing_of_noOp (s : DriverState) (h : s.processingThrottler = noOpThrottler) :
    scheduleProcessing s = s := by
  obtain ⟨lg, pt, kt, ht, dt, ct, rt, docs, mo, no, pr⟩ := s
  simp only at h
  subst h
  rfl

theorem fireProcessingThrottler_of_noOp (s : DriverState) (h : s.processingThrottler = noOpThrottler) :
    fireProcessingThrottler s = s := by
  unfold fireProcessingThrottler
  rw [h]
  rfl

/-- Claim C8: logging lifecycle. After startLogging, isLogging returns true; after
stopLogging, isLogging returns false, the documents array is empty and the processing
throttler is reset to the no-op throttler, so every scheduleProcessing call made
after stopLogging (and before any new startLogging) leaves the state untouched and a
subsequent throttler firing executes no processing work. -/
theorem driver_c8_lifecycle (options : StartOptions) (doc docBody : Nat) (docReady : Bool) (st st2 : DriverState) (body : Nat → Nat) (shadowRoots : List Nat) (n : Nat) :
    isLogging (startLogging options doc docReady docBody st) = true ∧
    isLogging (stopLogging body shadowRoots st2) = false ∧
    (stopLogging body shadowRoots st2).documents = [] ∧
    (stopLogging body shadowRoots st2).processingThrottler = noOpThrottler ∧
    scheduleProcessing^[n] (stopLogging body shadowRoots st2) = stopLogging body shadowRoots st2 ∧
    fireProcessingThrottler (stopLogging body shadowRoots st2) = stopLogging body shadowRoots st2 := by
  refine ⟨?_, rfl, rfl, rfl, ?_, fireProcessingThrottler_of_noOp _ rfl⟩
  · show (startLogging options doc docReady docBody st).logging = true
    unfold startLogging addDocument
    rw [observeMutations_logging]
    cases docReady
    · rfl
    · rfl
  · exact Function.iterate_fixed (scheduleProcessing_of_noOp _ rfl) n

theorem hasObserver_append_left (m xs : List (Nat × Nat)) (root : Nat) (h : hasObserver m root = true) :
    hasObserver (m ++ xs) root = true := by
  induction m with
  | nil => exact absurd h (by simp [hasObserver])
  | cons p rest ih =>
    by_cases hp : p.1 = root
    · simp [hasObserver, hp]
    · rw [hasObserver, if_neg hp] at h
      simpa [hasObserver, hp] using ih h

theorem lookupObserver_append_left (m xs : List (Nat × Nat)) (root : Nat) (h : hasObserver m root = true) :
    lookupObserver (m ++ xs) root = lookupObserver m root := by
  induction m with
  | nil => exact absurd h (by simp [hasObserver])
  | cons p rest ih =>
    by_cases hp : p.1 = root
    · simp [lookupObserver, hp]
    · rw [hasObserver, if_neg hp] at h
      simpa [lookupObserver, hp] using ih h

theorem hasObserver_iff_mem (m : List (Nat × Nat)) (root : Nat) :
    hasObserver m root = true ↔ root ∈ m.map Prod.fst := by
  induction m with
  | nil => simp [hasObserver]
  | cons p rest ih =>
    by_cases hp : p.1 = root
    · simp [hasObserver, hp]
    · rw [hasObserver, if_neg hp]
      simp only [List.map_cons, List.mem_cons, ih]
      constructor
      · exact fun h => Or.inr h
      · rintro (h | h)
        · exact absurd h.symm hp
        · exact h

theorem observeMutations_lookup_preserved (roots : List Nat) :
    ∀ (st : DriverState) (root : Nat), hasObserver st.mutationObservers root = true →
      lookupObserver (observeMutations roots st).mutationObservers root =
        lookupObserver st.mutationObservers root := by
  induction roots with
  | nil => intro st root _; rfl
  | cons r rest ih =>
    intro st root h
    by_cases hr : hasObserver st.mutationObservers r = true
    · simp only [observeMutations, if_pos hr]
      exact ih st root h
    · simp only [observeMutations, if_neg hr]
      rw [ih _ root (hasObserver_append_left _ _ _ h)]
      exact lookupObserver_append_left _ _ _ h

theorem observeMutations_id_of_observed (roots : List Nat) :
    ∀ st : DriverState, (∀ r ∈ roots, hasObserver st.mutationObservers r = true) →
      observeMutations roots st = st := by
  induction roots with
  | nil => intro st _; rfl
  | cons r rest ih =>
    intro st h
    have hr : hasObserver st.mutationObservers r = true := h r (List.mem_cons_self r rest)
    simp only [observeMutations, if_pos hr]
    exact ih st (fun x hx => h x (List.mem_cons_of_mem r hx))

theorem observeMutations_nodup (roots : List Nat) :
    ∀ st : DriverState, (st.mutationObservers.map Prod.fst).Nodup →
      ((observeMutations roots st).mutationObservers.map Prod.fst).Nodup := by
  induction roots with
  | nil => intro st h; exact h
  | cons r rest ih =>
    intro st h
    by_cases hr : hasObserver st.mutationObservers r = true
    · simp only [observeMutations, if_pos hr]
      exact ih st h
    · simp only [observeMutations, if_neg hr]
      refine ih _ ?_
      have hmem : r ∉ st.mutationObservers.map Prod.fst := fun hc =>
        hr ((hasObserver_iff_mem _ _).mpr hc)
      simp [List.nodup_append, h, hmem]

/-- Claim C9: observeMutations is idempotent per root. The map entry of an
already-observed root is never changed, so at most one observer is ever registered
per node (the keys of the observer map stay duplicate-free); calling observeMutations
with a list all of whose roots are already observed leaves the state, and hence the
map, unchanged. -/
theorem driver_c9_observe_idempotent (st : DriverState) (roots : List Nat) (root : Nat) :
    (hasObserver st.mutationObservers root = true →
      lookupObserver (observeMutations roots st).mutationObservers root =
        lookupObserver st.mutationObservers root) ∧
    ((∀ r ∈ roots, hasObserver st.mutationObservers r = true) →
      observeMutations roots st = st) ∧
    ((st.mutationObservers.map Prod.fst).Nodup →
      ((observeMutations roots st).mutationObservers.map Prod.fst).Nodup) :=
  ⟨observeMutations_lookup_preserved roots st root,
   observeMutations_id_of_observed roots st,
   observeMutations_nodup roots st⟩

/-- Witness for C9: re-observing an already-observed root changes nothing. -/
theorem driver_c9_witness :
    (∀ r ∈ [1], hasObserver
      (DriverState.mk false noOpThrottler noOpThrottler noOpThrottler noOpThrottler
        noOpThrottler noOpThrottler [] [(1, 0)] 1 0).mutationObservers r = true) ∧
    observeMutations [1]
      (DriverState.mk false noOpThrottler noOpThrottler noOpThrottler noOpThrottler
        noOpThrottler noOpThrottler [] [(1, 0)] 1 0) =
      DriverState.mk false noOpThrottler noOpThrottler noOpThrottler noOpThrottler
        noOpThrottler noOpThrottler [] [(1, 0)] 1 0 :=
  ⟨by decide,
   (driver_c9_observe_idempotent
      (DriverState.mk false noOpThrottler noOpThrottler noOpThrottler noOpThrottler
        noOpThrottler noOpThrottler [] [(1, 0)] 1 0) [1] 1).2.1 (by decide)⟩

end LoggingDriver

namespace LoggingProcess

theorem lookupFlag_setFlag (fl : List (Loggable × Bool)) (l x : Loggable) :
    lookupFlag (setFlag fl l) x = if l = x then true else lookupFlag fl x :=
  rfl

theorem domImpressions_mono (env : Nat → Bool) :
    ∀ (ids : List Nat) (fl : List (Loggable × Bool)) (l : Loggable),
      lookupFlag fl l = true → lookupFlag (domImpressions env ids fl).1 l = true := by
  intro ids
  induction ids with
  | nil => intro fl l h; exact h
  | cons id rest ih =>
    intro fl l h
    by_cases hc : lookupFlag fl (Loggable.dom id) = false ∧ env id = true
    · rw [domImpressions, if_pos hc]
      show lookupFlag (domImpressions env rest (setFlag fl (Loggable.dom id))).1 l = true
      apply ih
      rw [lookupFlag_setFlag]
      split
      · rfl
      · exact h
    · rw [domImpressions, if_neg hc]
      exact ih fl l h

theorem domImpressions_out (env : Nat → Bool) :
    ∀ (ids : List Nat) (fl : List (Loggable × Bool)) (l : Loggable),
      l ∈ (domImpressions env ids fl).2 →
        (∃ i, l = Loggable.dom i) ∧ lookupFlag fl l = false ∧
          lookupFlag (domImpressions env ids fl).1 l = true := by
  intro ids
  induction ids with
  | nil => intro fl l h; exact absurd h (List.not_mem_nil l)
  | cons id rest ih =>
    intro fl l h
    by_cases hc : lookupFlag fl (Loggable.dom id) = false ∧ env id = true
    · rw [domImpressions, if_pos hc] at h ⊢
      have h' : l = Loggable.dom id ∨ l ∈ (domImpressions env rest (setFlag fl (Loggable.dom id))).2 := by
        simpa using h
      show (∃ i, l = Loggable.dom i) ∧ lookupFlag fl l = false ∧
        lookupFlag (domImpressions env rest (setFlag fl (Loggable.dom id))).1 l = true
      rcases h' with h' | h'
      · subst h'
        refine ⟨⟨id, rfl⟩, hc.1, ?_⟩
        apply domImpressions_mono
        rw [lookupFlag_setFlag]
        simp
      · obtain ⟨hex, hfalse, htrue⟩ := ih (setFlag fl (Loggable.dom id)) l h'
        rw [lookupFlag_setFlag] at hfalse
        split at hfalse
        · exact absurd hfalse (by decide)
        · exact ⟨hex, hfalse, htrue⟩
    · rw [domImpressions, if_neg hc] at h ⊢
      exact ih fl l h

theorem domImpressions_nodup (env : Nat → Bool) :
    ∀ (ids : List Nat) (fl : List (Loggable × Bool)), ((domImpressions env ids fl).2).Nodup := by
  intro ids
  induction ids with
  | nil => intro fl; simp [domImpressions]
  | cons id rest ih =>
    intro fl
    by_cases hc : lookupFlag fl (Loggable.dom id) = false ∧ env id = true
    · rw [domImpressions, if_pos hc]
      show (Loggable.dom id :: (domImpressions env rest (setFlag fl (Loggable.dom id))).2).Nodup
      rw [List.nodup_cons]
      refine ⟨?_, ih _⟩
      intro hmem
      have hff := (domImpressions_out env rest _ _ hmem).2.1
      rw [lookupFlag_setFlag] at hff
      simp at hff
    · rw [domImpressions, if_neg hc]
      exact ih fl

theorem unregisterLoggable_sublist : ∀ (reg : List NonDomEntry) (id : Nat),
    (unregisterLoggable reg id).Sublist reg := by
  intro reg id
  induction reg with
  | nil => simp [unregisterLoggable]
  | cons e rest ih =>
    rw [unregisterLoggable]
    split
    · exact ih.cons e
    · exact ih.cons₂ e

theorem mem_unregisterLoggable : ∀ (reg : List NonDomEntry) (id : Nat) (e : NonDomEntry),
    e ∈ unregisterLoggable reg id → e ∈ reg ∧ e.loggable ≠ id := by
  intro reg id
  induction reg with
  | nil => intro e h; exact absurd h (List.not_mem_nil e)
  | cons x rest ih =>
    intro e h
    rw [unregisterLoggable] at h
    by_cases hx : x.loggable = id
    · rw [if_pos hx] at h
      obtain ⟨h1, h2⟩ := ih e h
      exact ⟨List.mem_cons_of_mem x h1, h2⟩
    · rw [if_neg hx] at h
      rcases List.mem_cons.mp h with h | h
      · subst h
        exact ⟨List.mem_cons_self e rest, hx⟩
      · obtain ⟨h1, h2⟩ := ih e h
        exact ⟨List.mem_cons_of_mem x h1, h2⟩

theorem nonDomImpressions_mono :
    ∀ (entries : List NonDomEntry) (fl : List (Loggable × Bool)) (reg : List NonDomEntry) (l : Loggable),
      lookupFlag fl l = true → lookupFlag (nonDomImpressions entries fl reg).1 l = true := by
  intro entries
  induction entries with
  | nil => intro fl reg l h; exact h
  | cons e rest ih =>
    intro fl reg l h
    by_cases hc : entryVisible fl e = true
    · rw [nonDomImpressions, if_pos hc]
      show lookupFlag (nonDomImpressions rest (setFlag fl (Loggable.nonDom e.loggable))
        (unregisterLoggable reg e.loggable)).1 l = true
      apply ih
      rw [lookupFlag_setFlag]
      split
      · rfl
      · exact h
    · rw [nonDomImpressions, if_neg hc]
      exact ih fl reg l h

theorem nonDomImpressions_out :
    ∀ (entries : List NonDomEntry) (fl : List (Loggable × Bool)) (reg : List NonDomEntry) (l : Loggable),
      l ∈ (nonDomImpressions entries fl reg).2.2 →
        ∃ e ∈ entries, l = Loggable.nonDom e.loggable := by
  intro entries
  induction entries with
  | nil => intro fl reg l h; exact absurd h (List.not_mem_nil l)
  | cons e rest ih =>
    intro fl reg l h
    by_cases hc : entryVisible fl e = true
    · rw [nonDomImpressions, if_pos hc] at h
      have h' : l = Loggable.nonDom e.loggable ∨
          l ∈ (nonDomImpressions rest (setFlag fl (Loggable.nonDom e.loggable))
            (unregisterLoggable reg e.loggable)).2.2 := by
        simpa using h
      rcases h' with h' | h'
      · exact ⟨e, List.mem_cons_self e rest, h'⟩
      · obtain ⟨x, hx1, hx2⟩ := ih _ _ l h'
        exact ⟨x, List.mem_cons_of_mem e hx1, hx2⟩
    · rw [nonDomImpressions, if_neg hc] at h
      obtain ⟨x, hx1, hx2⟩ := ih fl reg l h
      exact ⟨x, List.mem_cons_of_mem e hx1, hx2⟩

theorem nonDomImpressions_reg_sublist :
    ∀ (entries : List NonDomEntry) (fl : List (Loggable × Bool)) (reg : List NonDomEntry),
      ((nonDomImpressions entries fl reg).2.1).Sublist reg := by
  intro entries
  induction entries with
  | nil => intro fl reg; exact List.Sublist.refl reg
  | cons e rest ih =>
    intro fl reg
    by_cases hc : entryVisible fl e = true
    · rw [nonDomImpressions, if_pos hc]
      exact (ih _ _).trans (unregisterLoggable_sublist reg e.loggable)
    · rw [nonDomImpressions, if_neg hc]
      exact ih fl reg

theorem nonDomImpressions_out_unreg :
    ∀ (entries : List NonDomEntry) (fl : List (Loggable × Bool)) (reg : List NonDomEntry) (id : Nat),
      Loggable.nonDom id ∈ (nonDomImpressions entries fl reg).2.2 →
        ∀ x ∈ (nonDomImpressions entries fl reg).2.1, x.loggable ≠ id := by
  intro entries
  induction entries with
  | nil => intro fl reg id h; exact absurd h (List.not_mem_nil _)
  | cons e rest ih =>
    intro fl reg id h x hx
    by_cases hc : entryVisible fl e = true
    · rw [nonDomImpressions, if_pos hc] at h hx
      have h' : Loggable.nonDom id = Loggable.nonDom e.loggable ∨
          Loggable.nonDom id ∈ (nonDomImpressions rest (setFlag fl (Loggable.nonDom e.loggable))
            (unregisterLoggable reg e.loggable)).2.2 := by
        simpa using h
      have hx' : x ∈ (nonDomImpressions rest (setFlag fl (Loggable.nonDom e.loggable))
          (unregisterLoggable reg e.loggable)).2.1 := hx
      rcases h' with h' | h'
      · have hid : id = e.loggable := Loggable.nonDom.inj h'
        have hxmem : x ∈ unregisterLoggable reg e.loggable :=
          (nonDomImpressions_reg_sublist rest _ _).subset hx'
        rw [hid]
        exact (mem_unregisterLoggable reg e.loggable x hxmem).2
      · exact ih _ _ id h' x hx'
    · rw [nonDomImpressions, if_neg hc] at h hx
      exact ih fl reg id h x hx

theorem nonDomImpressions_out_nodup :
    ∀ (entries : List NonDomEntry) (fl : List (Loggable × Bool)) (reg : List NonDomEntry),
      (entries.map NonDomEntry.loggable).Nodup → ((nonDomImpressions entries fl reg).2.2).Nodup := by
  intro entries
  induction entries with
  | nil => intro fl reg _; simp [nonDomImpressions]
  | cons e rest ih =>
    intro fl reg h
    rw [List.map_cons, List.nodup_cons] at h
    by_cases hc : entryVisible fl e = true
    · rw [nonDomImpressions, if_pos hc]
      show (Loggable.nonDom e.loggable :: (nonDomImpressions rest (setFlag fl (Loggable.nonDom e.loggable))
        (unregisterLoggable reg e.loggable)).2.2).Nodup
      rw [List.nodup_cons]
      refine ⟨?_, ih _ _ h.2⟩
      intro hmem
      obtain ⟨x, hx1, hx2⟩ := nonDomImpressions_out rest _ _ _ hmem
      have : e.loggable = x.loggable := Loggable.nonDom.inj hx2
      exact h.1 (this ▸ List.mem_map_of_mem NonDomEntry.loggable hx1)
    · rw [nonDomImpressions, if_neg hc]
      exact ih fl reg h.2

theorem processRun_out_fresh (env : Nat → Bool) (doms : List Nat) (st : ImpressionState) :
    ∀ l ∈ (processRun env doms st).2, fresh st l := by
  intro l hl
  dsimp only [processRun] at hl
  rcases List.mem_append.mp hl with h | h
  · obtain ⟨⟨i, rfl⟩, hfalse, _⟩ := domImpressions_out env doms st.flags _ h
    exact hfalse
  · obtain ⟨e, he, rfl⟩ := nonDomImpressions_out st.registry _ st.registry _ h
    exact List.mem_map_of_mem NonDomEntry.loggable he

theorem processRun_out_stale (env : Nat → Bool) (doms : List Nat) (st : ImpressionState) :
    ∀ l ∈ (processRun env doms st).2, ¬ fresh (processRun env doms st).1 l := by
  intro l hl hf
  dsimp only [processRun] at hl hf
  rcases List.mem_append.mp hl with h | h
  · obtain ⟨⟨i, rfl⟩, _, htrue⟩ := domImpressions_out env doms st.flags _ h
    have : lookupFlag (nonDomImpressions st.registry (domImpressions env doms st.flags).1 st.registry).1
        (Loggable.dom i) = true :=
      nonDomImpressions_mono st.registry _ st.registry _ htrue
    rw [fresh] at hf
    exact absurd (hf ▸ this) (by decide)
  · obtain ⟨e, _, rfl⟩ := nonDomImpressions_out st.registry _ st.registry _ h
    rw [fresh] at hf
    obtain ⟨x, hx1, hx2⟩ := List.mem_map.mp hf
    exact nonDomImpressions_out_unreg st.registry _ st.registry _ h x hx1 hx2

theorem processRun_fresh_mono (env : Nat → Bool) (doms : List Nat) (st : ImpressionState) :
    ∀ l, fresh (processRun env doms st).1 l → fresh st l := by
  intro l hf
  dsimp only [processRun] at hf
  cases l with
  | dom i =>
    rw [fresh] at hf ⊢
    cases hb : lookupFlag st.flags (Loggable.dom i) with
    | false => rfl
    | true =>
      have h1 := domImpressions_mono env doms st.flags _ hb
      have h2 := nonDomImpressions_mono st.registry _ st.registry _ h1
      rw [hf] at h2
      exact absurd h2 (by decide)
  | nonDom id =>
    rw [fresh] at hf ⊢
    obtain ⟨x, hx1, hx2⟩ := List.mem_map.mp hf
    have : x ∈ st.registry :=
      (nonDomImpressions_reg_sublist st.registry _ st.registry).subset hx1
    exact hx2 ▸ List.mem_map_of_mem NonDomEntry.loggable this

theorem processRun_nodup (env : Nat → Bool) (doms : List Nat) (st : ImpressionState)
    (h : (st.registry.map NonDomEntry.loggable).Nodup) :
    ((processRun env doms st).2).Nodup := by
  dsimp only [processRun]
  rw [List.nodup_append]
  refine ⟨domImpressions_nodup env doms st.flags, nonDomImpressions_out_nodup st.registry _ st.registry h, ?_⟩
  intro l hl1 hl2
  obtain ⟨⟨i, rfl⟩, _, _⟩ := domImpressions_out env doms st.flags _ hl1
  obtain ⟨e, _, hshape⟩ := nonDomImpressions_out st.registry _ st.registry _ hl2
  exact Loggable.noConfusion hshape

theorem processRun_reg_nodup (env : Nat → Bool) (doms : List Nat) (st : ImpressionState)
    (h : (st.registry.map NonDomEntry.loggable).Nodup) :
    ((processRun env doms st).1.registry.map NonDomEntry.loggable).Nodup := by
  have hsub : (processRun env doms st).1.registry.Sublist st.registry :=
    nonDomImpressions_reg_sublist st.registry _ st.registry
  exact h.sublist (hsub.map NonDomEntry.loggable)

theorem processRuns_out_fresh :
    ∀ (inputs : List ((Nat → Bool) × List Nat)) (st : ImpressionState) (l : Loggable),
      l ∈ (processRuns inputs st).2 → fresh st l := by
  intro inputs
  induction inputs with
  | nil => intro st l h; exact absurd h (List.not_mem_nil l)
  | cons input rest ih =>
    intro st l h
    dsimp only [processRuns] at h
    rcases List.mem_append.mp h with h | h
    · exact processRun_out_fresh input.1 input.2 st l h
    · exact processRun_fresh_mono input.1 input.2 st l (ih _ l h)

theorem processRuns_nodup :
    ∀ (inputs : List ((Nat → Bool) × List Nat)) (st : ImpressionState),
      (st.registry.map NonDomEntry.loggable).Nodup → ((processRuns inputs st).2).Nodup := by
  intro inputs
  induction inputs with
  | nil => intro st _; simp [processRuns]
  | cons input rest ih =>
    intro st h
    dsimp only [processRuns]
    rw [List.nodup_append]
    refine ⟨processRun_nodup input.1 input.2 st h, ih _ (processRun_reg_nodup input.1 input.2 st h), ?_⟩
    intro l hl1 hl2
    exact processRun_out_stale input.1 input.2 st l hl1 (processRuns_out_fresh rest _ l hl2)

/-- Claim C5: each loggable's impression is logged at most once. Within one process
run, a loggable enters the visibleLoggables list only when it may still be logged -
for a DOM element, only when its impressionLogged flag is false - and afterwards it
no longer may: the DOM element's flag is set and the non-DOM loggable is
unregistered in the same step. Consequently, across any sequence of process runs
starting from a registry with no duplicate registrations, the concatenation of
everything passed to logImpressions contains every loggable at most once. -/
theorem process_c5_impressions_once (st : ImpressionState) (inputs : List ((Nat → Bool) × List Nat))
    (h : (st.registry.map NonDomEntry.loggable).Nodup) :
    ((processRuns inputs st).2).Nodup ∧
    (∀ l ∈ (processRuns inputs st).2, fresh st l) ∧
    (∀ (env : Nat → Bool) (doms : List Nat) (l : Loggable), l ∈ (processRun env doms st).2 →
      fresh st l ∧ ¬ fresh (processRun env doms st).1 l) :=
  ⟨processRuns_nodup inputs st h,
   fun l hl => processRuns_out_fresh inputs st l hl,
   fun env doms l hl => ⟨processRun_out_fresh env doms st l hl, processRun_out_stale env doms st l hl⟩⟩

/-- Witness for C5: two runs over concrete elements and a registered non-DOM
loggable log every impression exactly once. -/
theorem process_c5_witness :
    ((ImpressionState.mk [] [NonDomEntry.mk 7 none]).registry.map NonDomEntry.loggable).Nodup ∧
    ((processRuns [(fun _ => true, [1, 1, 2]), (fun _ => true, [1, 2, 3])]
      (ImpressionState.mk [] [NonDomEntry.mk 7 none])).2).Nodup :=
  ⟨by decide,
   (process_c5_impressions_once (ImpressionState.mk [] [NonDomEntry.mk 7 none])
     [(fun _ => true, [1, 1, 2]), (fun _ => true, [1, 2, 3])] (by decide)).1⟩

end LoggingProcess

namespace AnimationTimelineModel

/-- Claim C3: timeline scrubber math. For a time animation animationUpdated makes the
timeline duration equal iterations times the iteration duration (3 iterations of
duration 10 give duration 30); for a scroll-driven animation it makes the duration
equal the source node's scroll range, renders the current-time text as the scroll
offset in pixels (scroll offset 5 gives "5px"), and translates the scrubber by the
scroll offset times the pixel-time ratio. -/
theorem anim_c3_scrubber_math (pixelTimeRatio : ℚ) (st : TimelineState) :
    (∀ iterations iterationDuration : ℚ,
      (animationUpdated pixelTimeRatio st
        (AnimationKind.time iterations iterationDuration)).timelineDuration =
        iterations * iterationDuration) ∧
    (animationUpdated pixelTimeRatio st (AnimationKind.time 3 10)).timelineDuration = 30 ∧
    (∀ (scrollRange : ℚ) (scrollOffset : ℤ),
      (animationUpdated pixelTimeRatio st
        (AnimationKind.scrollDriven scrollRange scrollOffset)).timelineDuration = scrollRange ∧
      (animationUpdated pixelTimeRatio st
        (AnimationKind.scrollDriven scrollRange scrollOffset)).currentTimeText =
        toString scrollOffset ++ "px" ∧
      (animationUpdated pixelTimeRatio st
        (AnimationKind.scrollDriven scrollRange scrollOffset)).scrubberTranslateX =
        (scrollOffset : ℚ) * pixelTimeRatio) ∧
    (animationUpdated pixelTimeRatio st (AnimationKind.scrollDriven 100 5)).currentTimeText = "5px" := by
  refine ⟨fun _ _ => rfl, ?_, fun _ _ => ⟨rfl, rfl, rfl⟩, ?_⟩
  · show (3 : ℚ) * 10 = 30
    norm_num
  · rfl

end AnimationTimelineModel

end DevToolsFrontEnd
